import Mathlib

/-!
Verification of the STL → OBJ converter core (`main.py`).

The mesh-processing core of the converter is embedded shallowly:

* A mesh is an ordered list of vertices (3-component coordinates) and an
  ordered list of triangular faces (3 vertex indices).  Coordinates are
  modelled by rationals: the Python program computes with IEEE doubles, and
  the exact-arithmetic model `ℚ` represents the finite values; NaN and
  infinities are outside the model, so the `np.isfinite` test is the
  constant `true` here (see `isFiniteQ`).
* Code that can raise a Python exception is modelled with `Option`/`Except`:
  `none` / `.error` means the corresponding Python code raises.
* The cleanup passes of `cleanup_mesh` are embedded from the explicit
  fallback algorithms written out in `main.py` (the spec's design rule makes
  the primary `trimesh` methods and the fallbacks interchangeable
  implementations of the same pass interface).
* `trimesh`'s `bounds` attribute is modelled from the spec: per-axis min/max
  over all vertex coordinates, undefined (`none`, the Python code then
  raises) when there are no vertices.
-/

deriving instance DecidableEq for Except

namespace STLObj

/-- A vertex: one 3-component coordinate, modelled over `ℚ`. -/
abbrev Vertex : Type := ℚ × ℚ × ℚ

/-- A triangular face: three vertex indices. -/
abbrev Face : Type := ℕ × ℕ × ℕ

/-- The in-memory mesh: ordered vertices and ordered faces (`trimesh.Trimesh`
restricted to the data the converter manipulates). -/
structure Mesh where
  vertices : List Vertex
  faces : List Face
deriving DecidableEq

/-- `np.isfinite` on a coordinate.  The rational model contains exactly the
finite doubles, so in this model the test always holds. -/
def isFiniteQ (_ : ℚ) : Bool := true

/-- A vertex is finite when all three coordinates are (`np.isfinite(v).all(axis=1)`). -/
def vertexFinite (v : Vertex) : Bool :=
  isFiniteQ v.1 && isFiniteQ v.2.1 && isFiniteQ v.2.2

/-- Whether vertex index `i` is referenced by some face (used by the
unreferenced-vertex pass and the finite-value pass remapping). -/
def referencedIn (faces : List Face) (i : ℕ) : Bool :=
  faces.any (fun f => f.1 == i || f.2.1 == i || f.2.2 == i)

/-- Cleanup pass 1 of `cleanup_mesh`: remove vertices with non-finite
coordinates, drop faces referencing them, and remap the surviving indices
contiguously (the explicit fallback in `main.py`).  `none` models the numpy
`IndexError` raised by `finite_mask[faces]` when a face index is out of
range (the pass-level `except` then skips the pass). -/
def removeInfiniteValues (m : Mesh) : Option Mesh :=
  let mask : List Bool := m.vertices.map vertexFinite
  if mask.all (fun b => b) then some m
  else
    let nv := m.vertices.length
    if m.faces.any (fun f => nv ≤ f.1 || nv ≤ f.2.1 || nv ≤ f.2.2) then none
    else
      let maskAt : ℕ → Bool := fun i => ((m.vertices.get? i).map vertexFinite).getD false
      let newIndex : ℕ → ℕ := fun i => ((List.range i).filter maskAt).length
      let keptFaces := m.faces.filter (fun f => maskAt f.1 && maskAt f.2.1 && maskAt f.2.2)
      some ⟨(m.vertices.enum.filter (fun p => maskAt p.1)).map Prod.snd,
            keptFaces.map (fun f => (newIndex f.1, newIndex f.2.1, newIndex f.2.2))⟩

/-- A face is degenerate when its three vertex indices are not pairwise
distinct; the last-resort filter of pass 2 keeps exactly the non-degenerate
faces (`f[:,0] != f[:,1] and f[:,1] != f[:,2] and f[:,0] != f[:,2]`). -/
def removeDegenerateFaces (faces : List Face) : List Face :=
  faces.filter (fun f => f.1 != f.2.1 && f.2.1 != f.2.2 && f.1 != f.2.2)

/-- Cleanup pass 2 of `cleanup_mesh`: degenerate-face removal.  The pass
itself never raises in the model. -/
def removeDegeneratePass (m : Mesh) : Option Mesh :=
  some ⟨m.vertices, removeDegenerateFaces m.faces⟩

/-- Ascending sort of the three indices of a face row (`np.sort(faces, axis=1)`),
written out for a 3-element row. -/
def sort3 (a b c : ℕ) : List ℕ :=
  if a ≤ b then
    if b ≤ c then [a, b, c]
    else if a ≤ c then [a, c, b]
    else [c, a, b]
  else
    if a ≤ c then [b, a, c]
    else if b ≤ c then [b, c, a]
    else [c, b, a]

/-- The canonical form of a face: its three indices sorted ascending. -/
def canonical (f : Face) : List ℕ := sort3 f.1 f.2.1 f.2.2

/-- The duplicate-face mask of pass 3: `np.unique(canonical_view,
return_index=True)` returns, for each distinct canonical row, the smallest
index where it occurs; `update_faces` then keeps exactly those faces, in the
original order.  So face `i` survives iff no earlier face has the same
canonical form. -/
def removeDuplicateFaces (faces : List Face) : List Face :=
  if 0 < faces.length then
    ((faces.enumFrom 0).filter
        (fun p => (faces.take p.1).all (fun g => !(canonical g == canonical p.2)))).map Prod.snd
  else faces

/-- Cleanup pass 3 of `cleanup_mesh`: duplicate-face removal (never raises in
the model; the `len(faces) > 0` guard is kept from the source). -/
def removeDuplicatePass (m : Mesh) : Option Mesh :=
  some (if 0 < m.faces.length then ⟨m.vertices, removeDuplicateFaces m.faces⟩ else m)

/-- The duplicate-face pass as the spec words it: walk the faces in original
order, keeping a face exactly when its canonical form has not been seen
before, and remembering the canonical forms kept so far. -/
def keepFirstCanon : List Face → List (List ℕ) → List Face
  | [], _ => []
  | f :: rest, seen =>
    if canonical f ∈ seen then keepFirstCanon rest seen
    else f :: keepFirstCanon rest (canonical f :: seen)

/-- Cleanup pass 4 of `cleanup_mesh`: keep only vertices referenced by some
face, remapping indices contiguously (`np.unique` of the flattened faces is
the sorted list of referenced indices; `new_index[used] = arange(len(used))`
maps each kept index to its rank).  `none` models the numpy `IndexError` in
`new_index[used]` when a face index is `≥ len(vertices)`. -/
def removeUnreferencedVertices (m : Mesh) : Option Mesh :=
  let nv := m.vertices.length
  if m.faces.any (fun f => nv ≤ f.1 || nv ≤ f.2.1 || nv ≤ f.2.2) then none
  else
    let newIndex : ℕ → ℕ := fun i => ((List.range i).filter (referencedIn m.faces)).length
    some ⟨(m.vertices.enum.filter (fun p => referencedIn m.faces p.1)).map Prod.snd,
          m.faces.map (fun f => (newIndex f.1, newIndex f.2.1, newIndex f.2.2))⟩

/-- Cleanup pass 5.  Modelled from the spec: normal recomputation
(`fix_normals`, a `trimesh` method not part of this repository) is best
effort and "leaves the mesh otherwise intact"; normals are not part of the
mesh model, so the pass is the identity here. -/
def fixNormalsPass (m : Mesh) : Option Mesh := some m

/-- Run one cleanup pass under the per-pass `try/except Exception: pass` of
`cleanup_mesh`: a raised exception leaves the mesh as it was. -/
def tryPass (p : Mesh → Option Mesh) (m : Mesh) : Mesh := (p m).getD m

/-- The fixed, ordered pass sequence of `cleanup_mesh`. -/
def cleanupPasses : List (Mesh → Option Mesh) :=
  [removeInfiniteValues, removeDegeneratePass, removeDuplicatePass,
   removeUnreferencedVertices, fixNormalsPass]

/-- The mesh after the first `i` cleanup passes (each run best-effort). -/
def stageMesh (i : ℕ) (m : Mesh) : Mesh :=
  (cleanupPasses.take i).foldl (fun acc p => tryPass p acc) m

/-- `cleanup_mesh`: run all five passes in order, each behind its own
exception absorber. -/
def cleanup_mesh (m : Mesh) : Mesh :=
  cleanupPasses.foldl (fun acc p => tryPass p acc) m

/-- The converter configuration (`ConvertOptions` dataclass). -/
structure ConvertOptions where
  merge_vertices : Bool
  validate_cleanup : Bool
  scale_factor : ℚ
  center_to_origin : Bool
  swap_yz : Bool
  flip_x : Bool
  flip_y : Bool
  flip_z : Bool
deriving DecidableEq

/-- `foldl min` over a list with seed `x` (one axis of `vertices.min(axis=0)`). -/
def foldMin (x : ℚ) (l : List ℚ) : ℚ := l.foldl min x

/-- `foldl max` over a list with seed `x` (one axis of `vertices.max(axis=0)`). -/
def foldMax (x : ℚ) (l : List ℚ) : ℚ := l.foldl max x

/-- `trimesh`'s `mesh.bounds`.  Modelled from the spec: "per-axis min/max over
all vertex coordinates — undefined/empty if zero vertices"; `trimesh` returns
`None` for a mesh with no vertices, and the callers in `main.py` then raise
when they subscript it. -/
def meshBounds (m : Mesh) : Option (Vertex × Vertex) :=
  match m.vertices with
  | [] => none
  | v :: rest =>
    some ((foldMin v.1 (rest.map (fun w => w.1)),
           foldMin v.2.1 (rest.map (fun w => w.2.1)),
           foldMin v.2.2 (rest.map (fun w => w.2.2))),
          (foldMax v.1 (rest.map (fun w => w.1)),
           foldMax v.2.1 (rest.map (fun w => w.2.1)),
           foldMax v.2.2 (rest.map (fun w => w.2.2))))

/-- `apply_transforms` embedded statement-by-statement from `main.py`:
column swap to `(X, Z, Y)` when `swap_yz`, per-axis sign flips, scalar
multiplication when `scale_factor != 1.0`, then (when `center_to_origin`)
translation by the negative bounding-box midpoint of the already-transformed
mesh.  `none` models the `TypeError` raised when centering is requested for
a mesh with no vertices (`m.bounds` is `None`). -/
def apply_transforms (m : Mesh) (opt : ConvertOptions) : Option Mesh :=
  let v0 := m.vertices
  let v1 := if opt.swap_yz then v0.map (fun v => (v.1, v.2.2, v.2.1)) else v0
  let v2 := if opt.flip_x then v1.map (fun v => (-v.1, v.2.1, v.2.2)) else v1
  let v3 := if opt.flip_y then v2.map (fun v => (v.1, -v.2.1, v.2.2)) else v2
  let v4 := if opt.flip_z then v3.map (fun v => (v.1, v.2.1, -v.2.2)) else v3
  let v5 := if opt.scale_factor ≠ 1 then
      v4.map (fun v => (v.1 * opt.scale_factor, v.2.1 * opt.scale_factor,
                        v.2.2 * opt.scale_factor))
    else v4
  let m1 : Mesh := ⟨v5, m.faces⟩
  if opt.center_to_origin then
    match meshBounds m1 with
    | none => none
    | some (mn, mx) =>
      some ⟨v5.map (fun v => (v.1 - (mn.1 + mx.1) * (1/2),
                              v.2.1 - (mn.2.1 + mx.2.1) * (1/2),
                              v.2.2 - (mn.2.2 + mx.2.2) * (1/2))), m.faces⟩
  else some m1

/-- Spec-side step 1 of the `TransformPipeline`: "If axis-swap enabled:
permute columns so the triple becomes (X, Z, Y)." -/
def swapStepSpec (b : Bool) (m : Mesh) : Mesh :=
  if b then ⟨m.vertices.map (fun v => (v.1, v.2.2, v.2.1)), m.faces⟩ else m

/-- Spec-side step 2 (X part): multiply the X column by −1 where enabled. -/
def flipXSpec (b : Bool) (m : Mesh) : Mesh :=
  if b then ⟨m.vertices.map (fun v => (-v.1, v.2.1, v.2.2)), m.faces⟩ else m

/-- Spec-side step 2 (Y part): multiply the Y column by −1 where enabled. -/
def flipYSpec (b : Bool) (m : Mesh) : Mesh :=
  if b then ⟨m.vertices.map (fun v => (v.1, -v.2.1, v.2.2)), m.faces⟩ else m

/-- Spec-side step 2 (Z part): multiply the Z column by −1 where enabled. -/
def flipZSpec (b : Bool) (m : Mesh) : Mesh :=
  if b then ⟨m.vertices.map (fun v => (v.1, v.2.1, -v.2.2)), m.faces⟩ else m

/-- Spec-side step 3: "If scale factor ≠ 1.0: multiply all coordinates by the
scalar." -/
def scaleStepSpec (s : ℚ) (m : Mesh) : Mesh :=
  if s ≠ 1 then
    ⟨m.vertices.map (fun v => (v.1 * s, v.2.1 * s, v.2.2 * s)), m.faces⟩
  else m

/-- Spec-side step 4: "If centering enabled: recompute the axis-aligned
bounding box of the mesh after steps 1–3, compute its midpoint, and
translate all vertices by the negative of that midpoint."  Undefined
(`none`) when the mesh has no vertices and hence no bounding box. -/
def centerStepSpec (b : Bool) (m : Mesh) : Option Mesh :=
  if b then
    match meshBounds m with
    | none => none
    | some (mn, mx) =>
      some ⟨m.vertices.map (fun v => (v.1 - (mn.1 + mx.1) * (1/2),
                                      v.2.1 - (mn.2.1 + mx.2.1) * (1/2),
                                      v.2.2 - (mn.2.2 + mx.2.2) * (1/2))), m.faces⟩
  else some m

/-- The whole `TransformPipeline` as described by the spec: swap, then flips,
then scale, then centering, in this fixed order. -/
def transformPipelineSpec (m : Mesh) (opt : ConvertOptions) : Option Mesh :=
  centerStepSpec opt.center_to_origin
    (scaleStepSpec opt.scale_factor
      (flipZSpec opt.flip_z (flipYSpec opt.flip_y (flipXSpec opt.flip_x
        (swapStepSpec opt.swap_yz m)))))

/-- The derived statistics snapshot (`MeshStats` dataclass). -/
structure MeshStats where
  vertices : ℕ
  faces : ℕ
  bounds_min : Vertex
  bounds_max : Vertex
  extents : Vertex
deriving DecidableEq

/-- `safe_mesh_stats`: vertex/face counts plus bounding box and extents.
`none` models the `TypeError` the function raises when `mesh.bounds` is
`None` (zero vertices) and the code subscripts it. -/
def safe_mesh_stats (m : Mesh) : Option MeshStats :=
  match meshBounds m with
  | none => none
  | some (bmin, bmax) =>
    some ⟨m.vertices.length, m.faces.length, bmin, bmax,
          (bmax.1 - bmin.1, bmax.2.1 - bmin.2.1, bmax.2.2 - bmin.2.2)⟩

/-- The notifications a `ConvertWorker` emits: log text, integer progress,
and the terminal `(success, message)` signal. -/
inductive Ev where
  | log : String → Ev
  | progress : ℕ → Ev
  | done : Bool → String → Ev
deriving DecidableEq

/-- The observable outcome of one worker run: the emitted notifications in
order, the output paths written to disk (one per successfully converted
job; the worker never deletes an output), and the 1-based indices of the
jobs on which `convert_one` was invoked. -/
structure RunResult where
  events : List Ev
  written : List String
  attempted : List ℕ
deriving DecidableEq

/-- The per-job "Loading" log line. -/
def loadingMsg (i n : ℕ) (name : String) : String :=
  "\n[" ++ toString i ++ "/" ++ toString n ++ "] Loading: " ++ name

/-- The per-job "Exported" log line.  The numeric body (counts, rounded
bounds and extents) is presentation formatting and is elided from the
model. -/
def exportMsg (outName : String) (_ : MeshStats) : String :=
  "Exported: " ++ outName

/-- The error log line (the traceback text and emoji are elided). -/
def errLog (e : String) : String := "\nError:\n" ++ e

/-- The job loop of `ConvertWorker.run`.  `conv i` is the outcome of
`convert_one` on the `i`-th job (1-based): `.ok` returns its stats, `.error`
models a raised exception with its message.  `cancel i` is the value of the
cooperative cancellation flag as observed at the boundary before job `i` —
the only points where the worker reads it. -/
def runLoop (conv : ℕ → Except String MeshStats) (cancel : ℕ → Bool) (n : ℕ) :
    List (String × String) → ℕ → RunResult
  | [], _ =>
    ⟨[Ev.done true ("Converted " ++ toString n ++ " file(s) successfully.")], [], []⟩
  | (inp, outp) :: rest, i =>
    if cancel i then
      ⟨[Ev.log "Cancelled.", Ev.done false "Cancelled by user."], [], []⟩
    else
      match conv i with
      | Except.error e =>
        ⟨[Ev.log (loadingMsg i n inp), Ev.log (errLog e),
          Ev.done false ("Failed: " ++ e)], [], [i]⟩
      | Except.ok st =>
        let r := runLoop conv cancel n rest (i + 1)
        ⟨Ev.log (loadingMsg i n inp) :: Ev.log (exportMsg outp st) ::
           Ev.progress (i * 100 / n) :: r.events,
         outp :: r.written, i :: r.attempted⟩

/-- `ConvertWorker.run`: the whole batch.  An empty job list immediately
emits the failure terminal signal; otherwise the start log and progress 0
are emitted and the job loop runs. -/
def ConvertWorker.run (items : List (String × String))
    (conv : ℕ → Except String MeshStats) (cancel : ℕ → Bool) : RunResult :=
  if items.length = 0 then ⟨[Ev.done false "No files to convert."], [], []⟩
  else
    let r := runLoop conv cancel items.length items 1
    ⟨Ev.log ("Starting conversion of " ++ toString items.length ++ " file(s)...") ::
       Ev.progress 0 :: r.events, r.written, r.attempted⟩

/-- ASCII lower-casing of one character (Python's `str.lower` restricted to
the ASCII names the converter produces). -/
def lowerChar (c : Char) : Char :=
  if 65 ≤ c.toNat && c.toNat ≤ 90 then Char.ofNat (c.toNat + 32) else c

/-- `candidate.lower()` for filenames. -/
def strLower (s : String) : String := ⟨s.data.map lowerChar⟩

/-- Python's `f"{idx:02d}"`: decimal digits, left-padded with `0` to width 2. -/
def pad2 (n : ℕ) : String :=
  if n < 10 then "0" ++ toString n else toString n

/-- The `k`-th candidate filename tried by the collision loop: the bare
`name.obj` first, then `name_k.obj` for `k = 1, 2, …`. -/
def candName (base : String) : ℕ → String
  | 0 => base ++ ".obj"
  | Nat.succ k => base ++ "_" ++ toString (k + 1) ++ ".obj"

/-- The `while` collision loop of `_build_conversion_list`: starting from
counter `c`, return the first candidate that is not taken.  `fuel` bounds
the number of probes; `none` models the (unreachable for a finite folder)
case of the Python loop never finding a free name. -/
def resolveLoop (taken : String → Bool) (base : String) : ℕ → ℕ → Option String
  | 0, _ => none
  | Nat.succ fuel, c =>
    if taken (candName base c) then resolveLoop taken base fuel (c + 1)
    else some (candName base c)

/-- The naming loop of `_build_conversion_list` over the job stems.
`mode` is the combo-box index (0 same name, 1 add suffix, 2 custom name),
`total` the job count, `onDisk idx c` whether candidate `c` already exists
in job `idx`'s destination folder, `used` the (lower-cased) names already
assigned in this run.  `.error` models the raised `ValueError` for an empty
custom name; the outer `none` models a diverging collision loop. -/
def buildLoop (mode : ℕ) (customBase : String) (total : ℕ)
    (onDisk : ℕ → String → Bool) (fuel : ℕ) :
    ℕ → List String → List String → Option (Except String (List String))
  | _, _, [] => some (Except.ok [])
  | idx, used, stem :: rest =>
    let nameRes : Except String String :=
      if mode == 0 then Except.ok stem
      else if mode == 1 then Except.ok (stem ++ "_converted")
      else if customBase == "" then
        Except.error "Custom name selected but no name provided."
      else Except.ok (if 1 < total then customBase ++ "_" ++ pad2 idx else customBase)
    match nameRes with
    | Except.error e => some (Except.error e)
    | Except.ok outName =>
      match resolveLoop
          (fun c => used.contains (strLower c) || onDisk idx c) outName fuel 0 with
      | none => none
      | some cand =>
        match buildLoop mode customBase total onDisk fuel (idx + 1)
            (strLower cand :: used) rest with
        | none => none
        | some (Except.error e) => some (Except.error e)
        | some (Except.ok rest') => some (Except.ok (cand :: rest'))

/-- `_build_conversion_list` restricted to its naming core: compute the
resolved output filename for each job stem, in order, threading the
case-insensitive set of names assigned so far. -/
def buildConversionList (mode : ℕ) (customBase : String) (stems : List String)
    (onDisk : ℕ → String → Bool) (fuel : ℕ) : Option (Except String (List String)) :=
  buildLoop mode customBase stems.length onDisk fuel 1 [] stems

/-! ### Helper lemmas -/

/-- Sorting a 3-element row is invariant under reversing the row: a face and
its opposite-winding form have the same canonical form. -/
theorem sort3_rev (a b c : ℕ) : sort3 a b c = sort3 c b a := by
  unfold sort3
  split_ifs <;> simp_all <;> omega

/-- `keepFirstCanon` only queries `seen` through membership. -/
theorem keepFirstCanon_congr (rest : List Face) :
    ∀ s₁ s₂ : List (List ℕ), (∀ c, c ∈ s₁ ↔ c ∈ s₂) →
      keepFirstCanon rest s₁ = keepFirstCanon rest s₂ := by
  induction rest with
  | nil => intro s₁ s₂ _; rfl
  | cons f rs ih =>
    intro s₁ s₂ h
    by_cases hm : canonical f ∈ s₁
    · rw [keepFirstCanon, if_pos hm, keepFirstCanon, if_pos ((h _).1 hm), ih _ _ h]
    · rw [keepFirstCanon, if_neg hm, keepFirstCanon, if_neg (fun hc => hm ((h _).2 hc))]
      refine congrArg _ (ih _ _ ?_)
      intro c
      simp only [List.mem_cons]
      exact or_congr Iff.rfl (h c)

/-- The first-occurrence mask of `np.unique(..., return_index=True)` agrees
with the spec's left-to-right walk, for any split of the face list into an
already-processed prefix and a remaining suffix. -/
theorem dedup_go (rest : List Face) :
    ∀ pre : List Face,
      ((rest.enumFrom pre.length).filter
          (fun p => ((pre ++ rest).take p.1).all
            (fun g => !(canonical g == canonical p.2)))).map Prod.snd
        = keepFirstCanon rest (pre.map canonical) := by
  induction rest with
  | nil => intro pre; rfl
  | cons f rs ih =>
    intro pre
    have htake : (pre ++ f :: rs).take pre.length = pre := List.take_left pre _
    have happ : pre ++ f :: rs = (pre ++ [f]) ++ rs := by simp
    have hlen : pre.length + 1 = (pre ++ [f]).length := by simp
    have hseen : ∀ c, c ∈ (pre ++ [f]).map canonical ↔ c ∈ canonical f :: pre.map canonical := by
      intro c
      simp only [List.map_append, List.map_cons, List.map_nil, List.mem_append,
        List.mem_cons, List.not_mem_nil, or_false]
      exact Or.comm
    by_cases hm : canonical f ∈ pre.map canonical
    · have hpf : pre.all (fun g => !(canonical g == canonical f)) = false := by
        rw [List.all_eq_false]
        obtain ⟨g, hg, hgc⟩ := List.mem_map.1 hm
        exact ⟨g, hg, by simp [hgc]⟩
      rw [List.enumFrom_cons]
      simp only [List.filter_cons, htake, hpf, Bool.false_eq_true, if_false]
      rw [keepFirstCanon, if_pos hm, happ, hlen, ih (pre ++ [f])]
      refine keepFirstCanon_congr _ _ _ (fun c => (hseen c).trans ?_)
      simp only [List.mem_cons]
      constructor
      · rintro (h | h)
        · exact h ▸ hm
        · exact h
      · exact Or.inr
    · have hpt : pre.all (fun g => !(canonical g == canonical f)) = true := by
        rw [List.all_eq_true]
        intro g hg
        have hne : canonical g ≠ canonical f := fun hc =>
          hm (hc ▸ List.mem_map_of_mem canonical hg)
        simp [hne]
      rw [List.enumFrom_cons]
      simp only [List.filter_cons, htake, hpt, if_true]
      rw [List.map_cons, keepFirstCanon, if_neg hm, happ, hlen, ih (pre ++ [f])]
      exact congrArg _ (keepFirstCanon_congr _ _ _ hseen)

/-- The source pass equals the spec's first-occurrence walk started with an
empty seen-set. -/
theorem removeDuplicateFaces_eq_keepFirst (faces : List Face) :
    removeDuplicateFaces faces = keepFirstCanon faces [] := by
  cases faces with
  | nil => rfl
  | cons f rs =>
    rw [removeDuplicateFaces, if_pos (by simp)]
    have := dedup_go (f :: rs) []
    simpa using this

/-- The spec walk keeps a subsequence of the input (original order, no new
faces). -/
theorem keepFirstCanon_sublist (faces : List Face) :
    ∀ seen, (keepFirstCanon faces seen).Sublist faces := by
  induction faces with
  | nil => intro _; simp [keepFirstCanon]
  | cons f rs ih =>
    intro seen
    rw [keepFirstCanon]
    split_ifs
    · exact (ih _).cons f
    · exact (ih _).cons₂ f

/-- If no face's canonical form was seen before and the canonical forms are
pairwise distinct, the walk keeps every face. -/
theorem keepFirstCanon_id (faces : List Face) :
    ∀ seen, (∀ f ∈ faces, canonical f ∉ seen) →
      faces.Pairwise (fun f g => canonical f ≠ canonical g) →
      keepFirstCanon faces seen = faces := by
  induction faces with
  | nil => intro _ _ _; rfl
  | cons f rs ih =>
    intro seen hseen hpair
    rw [keepFirstCanon, if_neg (hseen f (by simp))]
    refine congrArg _ (ih _ ?_ (List.Pairwise.of_cons hpair))
    intro g hg
    simp only [List.mem_cons]
    rintro (hc | hc)
    · exact (List.rel_of_pairwise_cons hpair hg) hc.symm
    · exact hseen g (by simp [hg]) hc

/-- In the rational model every coordinate is finite, so the finite-value
pass takes its no-op branch on every mesh. -/
theorem removeInfiniteValues_eq (m : Mesh) : removeInfiniteValues m = some m := by
  have h : (m.vertices.map vertexFinite).all (fun b => b) = true := by
    rw [List.all_eq_true]
    intro b hb
    obtain ⟨v, _, rfl⟩ := List.mem_map.1 hb
    rfl
  rw [removeInfiniteValues]
  simp [h]

/-- The degenerate-face filter keeps everything when no face is degenerate. -/
theorem removeDegenerateFaces_eq_self (faces : List Face)
    (h : ∀ f ∈ faces, f.1 ≠ f.2.1 ∧ f.2.1 ≠ f.2.2 ∧ f.1 ≠ f.2.2) :
    removeDegenerateFaces faces = faces := by
  rw [removeDegenerateFaces, List.filter_eq_self]
  intro f hf
  obtain ⟨h1, h2, h3⟩ := h f hf
  simp [h1, h2, h3]

/-- The duplicate-face pass keeps everything when all canonical forms are
pairwise distinct. -/
theorem removeDuplicateFaces_eq_self (faces : List Face)
    (h : faces.Pairwise fun f g => canonical f ≠ canonical g) :
    removeDuplicateFaces faces = faces := by
  rw [removeDuplicateFaces_eq_keepFirst]
  exact keepFirstCanon_id faces [] (by simp) h

/-- When every vertex is referenced by some face, the unreferenced-vertex
pass (run best-effort) leaves the mesh unchanged: with an out-of-range face
index it raises and is skipped, and otherwise the kept-vertex filter and the
index remap are both the identity. -/
theorem removeUnreferencedVertices_id (m : Mesh)
    (href : ∀ i < m.vertices.length, referencedIn m.faces i = true) :
    tryPass removeUnreferencedVertices m = m := by
  rw [tryPass, removeUnreferencedVertices]
  by_cases hoob : m.faces.any
      (fun f => m.vertices.length ≤ f.1 || m.vertices.length ≤ f.2.1 ||
        m.vertices.length ≤ f.2.2) = true
  · simp [hoob]
  · have hin : ∀ f ∈ m.faces, f.1 < m.vertices.length ∧ f.2.1 < m.vertices.length ∧
        f.2.2 < m.vertices.length := by
      intro f hf
      rw [Bool.not_eq_true, List.any_eq_false] at hoob
      have := hoob f hf
      simp only [Bool.or_eq_true, decide_eq_true_eq, not_or] at this
      omega
    have hfill : ∀ i < m.vertices.length,
        ((List.range i).filter (referencedIn m.faces)).length = i := by
      intro i hi
      rw [List.filter_eq_self.2 fun j hj => href j (lt_trans (List.mem_range.1 hj) hi),
        List.length_range]
    have hverts : (m.vertices.enum.filter
        (fun p => referencedIn m.faces p.1)).map Prod.snd = m.vertices := by
      rw [List.filter_eq_self.2, List.enum_map_snd]
      intro p hp
      rw [List.enum_eq_zip_range] at hp
      exact href p.1 (List.mem_range.1 (List.of_mem_zip hp).1)
    have hfaces : m.faces.map (fun f =>
        (((List.range f.1).filter (referencedIn m.faces)).length,
         ((List.range f.2.1).filter (referencedIn m.faces)).length,
         ((List.range f.2.2).filter (referencedIn m.faces)).length)) = m.faces := by
      rw [show m.faces = m.faces.map id from (List.map_id m.faces).symm]
      rw [List.map_map]
      refine List.map_congr_left (fun f hf => ?_)
      obtain ⟨h1, h2, h3⟩ := hin f (by simpa using hf)
      simp [hfill _ h1, hfill _ h2, hfill _ h3]
    simp only [hoob]
    rw [hverts, hfaces]
    simp

/-- Translating every element commutes with the running minimum. -/
theorem foldMin_sub (l : List ℚ) :
    ∀ x c : ℚ, foldMin (x - c) (l.map (fun y => y - c)) = foldMin x l - c := by
  induction l with
  | nil => intro x c; rfl
  | cons y ys ih =>
    intro x c
    show foldMin (min (x - c) (y - c)) (ys.map (fun y => y - c)) = _
    rw [min_sub_sub_right]
    exact ih (min x y) c

/-- Translating every element commutes with the running maximum. -/
theorem foldMax_sub (l : List ℚ) :
    ∀ x c : ℚ, foldMax (x - c) (l.map (fun y => y - c)) = foldMax x l - c := by
  induction l with
  | nil => intro x c; rfl
  | cons y ys ih =>
    intro x c
    show foldMax (max (x - c) (y - c)) (ys.map (fun y => y - c)) = _
    rw [max_sub_sub_right]
    exact ih (max x y) c

/-- `foldMin_sub`, fused through a component projection. -/
theorem foldMin_sub_map (g : Vertex → ℚ) (us : List Vertex) (x c : ℚ) :
    foldMin (x - c) (us.map fun w => g w - c) = foldMin x (us.map g) - c := by
  rw [show (us.map fun w => g w - c) = (us.map g).map (fun y => y - c) from by
    rw [List.map_map]; rfl]
  exact foldMin_sub _ x c

/-- `foldMax_sub`, fused through a component projection. -/
theorem foldMax_sub_map (g : Vertex → ℚ) (us : List Vertex) (x c : ℚ) :
    foldMax (x - c) (us.map fun w => g w - c) = foldMax x (us.map g) - c := by
  rw [show (us.map fun w => g w - c) = (us.map g).map (fun y => y - c) from by
    rw [List.map_map]; rfl]
  exact foldMax_sub _ x c

/-- The bounding box of a nonempty mesh, written out. -/
theorem meshBounds_cons (v : Vertex) (rest : List Vertex) (fs : List Face) :
    meshBounds ⟨v :: rest, fs⟩ =
      some ((foldMin v.1 (rest.map fun w => w.1),
             foldMin v.2.1 (rest.map fun w => w.2.1),
             foldMin v.2.2 (rest.map fun w => w.2.2)),
            (foldMax v.1 (rest.map fun w => w.1),
             foldMax v.2.1 (rest.map fun w => w.2.1),
             foldMax v.2.2 (rest.map fun w => w.2.2))) := rfl

/-- All pipeline steps before centering preserve the vertex count. -/
theorem preSteps_length (m : Mesh) (opt : ConvertOptions) :
    (scaleStepSpec opt.scale_factor (flipZSpec opt.flip_z (flipYSpec opt.flip_y
      (flipXSpec opt.flip_x (swapStepSpec opt.swap_yz m))))).vertices.length
      = m.vertices.length := by
  simp only [swapStepSpec, flipXSpec, flipYSpec, flipZSpec, scaleStepSpec]
  split_ifs <;> simp

/-- Centering a nonempty mesh yields a mesh whose bounding box has its
midpoint at the origin: the new per-axis min and max sum to zero exactly. -/
theorem centerStepSpec_midpoint (m : Mesh) (hne : m.vertices ≠ []) :
    ∃ (m' : Mesh) (mn mx : Vertex), centerStepSpec true m = some m'
      ∧ meshBounds m' = some (mn, mx)
      ∧ mn.1 + mx.1 = 0 ∧ mn.2.1 + mx.2.1 = 0 ∧ mn.2.2 + mx.2.2 = 0 := by
  obtain ⟨u, us, hu⟩ := List.exists_cons_of_ne_nil hne
  have hb : meshBounds m = meshBounds ⟨u :: us, m.faces⟩ := by
    rw [meshBounds, meshBounds, hu]
  rw [meshBounds_cons] at hb
  have hstep : centerStepSpec true m =
      some ⟨(u :: us).map (fun v =>
        (v.1 - (foldMin u.1 (us.map fun w => w.1) +
                foldMax u.1 (us.map fun w => w.1)) * (1/2),
         v.2.1 - (foldMin u.2.1 (us.map fun w => w.2.1) +
                  foldMax u.2.1 (us.map fun w => w.2.1)) * (1/2),
         v.2.2 - (foldMin u.2.2 (us.map fun w => w.2.2) +
                  foldMax u.2.2 (us.map fun w => w.2.2)) * (1/2))), m.faces⟩ := by
    rw [centerStepSpec, if_pos rfl, hb, hu]
  refine ⟨_,
    (foldMin u.1 (us.map fun w => w.1) -
       (foldMin u.1 (us.map fun w => w.1) + foldMax u.1 (us.map fun w => w.1)) * (1/2),
     foldMin u.2.1 (us.map fun w => w.2.1) -
       (foldMin u.2.1 (us.map fun w => w.2.1) +
        foldMax u.2.1 (us.map fun w => w.2.1)) * (1/2),
     foldMin u.2.2 (us.map fun w => w.2.2) -
       (foldMin u.2.2 (us.map fun w => w.2.2) +
        foldMax u.2.2 (us.map fun w => w.2.2)) * (1/2)),
    (foldMax u.1 (us.map fun w => w.1) -
       (foldMin u.1 (us.map fun w => w.1) + foldMax u.1 (us.map fun w => w.1)) * (1/2),
     foldMax u.2.1 (us.map fun w => w.2.1) -
       (foldMin u.2.1 (us.map fun w => w.2.1) +
        foldMax u.2.1 (us.map fun w => w.2.1)) * (1/2),
     foldMax u.2.2 (us.map fun w => w.2.2) -
       (foldMin u.2.2 (us.map fun w => w.2.2) +
        foldMax u.2.2 (us.map fun w => w.2.2)) * (1/2)),
    hstep, ?_, by ring, by ring, by ring⟩
  rw [List.map_cons, meshBounds_cons]
  simp only [List.map_map, Function.comp_def]
  rw [foldMin_sub_map (fun w => w.1), foldMin_sub_map (fun w => w.2.1),
    foldMin_sub_map (fun w => w.2.2), foldMax_sub_map (fun w => w.1),
    foldMax_sub_map (fun w => w.2.1), foldMax_sub_map (fun w => w.2.2)]

/-- The swap step, with the branch pushed into the vertex list. -/
theorem swapStepSpec_eq (b : Bool) (mm : Mesh) :
    swapStepSpec b mm =
      ⟨if b then mm.vertices.map (fun v => (v.1, v.2.2, v.2.1)) else mm.vertices,
       mm.faces⟩ := by
  cases b <;> simp [swapStepSpec]

/-- The X-flip step, with the branch pushed into the vertex list. -/
theorem flipXSpec_eq (b : Bool) (mm : Mesh) :
    flipXSpec b mm =
      ⟨if b then mm.vertices.map (fun v => (-v.1, v.2.1, v.2.2)) else mm.vertices,
       mm.faces⟩ := by
  cases b <;> simp [flipXSpec]

/-- The Y-flip step, with the branch pushed into the vertex list. -/
theorem flipYSpec_eq (b : Bool) (mm : Mesh) :
    flipYSpec b mm =
      ⟨if b then mm.vertices.map (fun v => (v.1, -v.2.1, v.2.2)) else mm.vertices,
       mm.faces⟩ := by
  cases b <;> simp [flipYSpec]

/-- The Z-flip step, with the branch pushed into the vertex list. -/
theorem flipZSpec_eq (b : Bool) (mm : Mesh) :
    flipZSpec b mm =
      ⟨if b then mm.vertices.map (fun v => (v.1, v.2.1, -v.2.2)) else mm.vertices,
       mm.faces⟩ := by
  cases b <;> simp [flipZSpec]

/-- The scale step, with the branch pushed into the vertex list. -/
theorem scaleStepSpec_eq (s : ℚ) (mm : Mesh) :
    scaleStepSpec s mm =
      ⟨if s ≠ 1 then mm.vertices.map (fun v => (v.1 * s, v.2.1 * s, v.2.2 * s))
        else mm.vertices, mm.faces⟩ := by
  rw [scaleStepSpec]
  split_ifs <;> simp

/-- Unfolding one step of the cleanup pass chain. -/
theorem stageMesh_succ (i : ℕ) (h : i < cleanupPasses.length) (m : Mesh) :
    stageMesh (i + 1) m = tryPass (cleanupPasses.get ⟨i, h⟩) (stageMesh i m) := by
  rw [stageMesh, stageMesh, List.take_succ, List.foldl_append,
    List.getElem?_eq_getElem h]
  rfl

/-- The job loop under a cancellation flag that first turns true at the
boundary before job `k`: every earlier job runs and writes its output, the
loop then stops with the cancellation log and the non-success terminal
signal, and no job from `k` on is attempted. -/
theorem runLoop_cancelled (conv : ℕ → Except String MeshStats) (cancel : ℕ → Bool)
    (n : ℕ) (rest : List (String × String)) :
    ∀ (i k : ℕ), i ≤ k → k < i + rest.length →
      (∀ j, i ≤ j → j < k → cancel j = false) →
      cancel k = true →
      (∀ j, i ≤ j → j < k → ∃ s, conv j = Except.ok s) →
      (∃ pre, (runLoop conv cancel n rest i).events
          = pre ++ [Ev.log "Cancelled.", Ev.done false "Cancelled by user."])
      ∧ (runLoop conv cancel n rest i).written = (rest.take (k - i)).map Prod.snd
      ∧ (runLoop conv cancel n rest i).attempted = List.range' i (k - i) := by
  induction rest with
  | nil =>
    intro i k h1 h2 _ _ _
    simp only [List.length_nil, Nat.add_zero] at h2
    omega
  | cons job rs ih =>
    intro i k h1 h2 hcf hct hcv
    obtain ⟨inp, outp⟩ := job
    by_cases hik : i = k
    · subst hik
      rw [runLoop, if_pos hct]
      exact ⟨⟨[], rfl⟩, by simp, by simp⟩
    · have hik' : i < k := lt_of_le_of_ne h1 hik
      have hci : cancel i = false := hcf i le_rfl hik'
      obtain ⟨s, hs⟩ := hcv i le_rfl hik'
      have hr := ih (i + 1) k hik' (by simp only [List.length_cons] at h2; omega)
        (fun j hj1 hj2 => hcf j (by omega) hj2) hct
        (fun j hj1 hj2 => hcv j (by omega) hj2)
      obtain ⟨⟨pre, hpre⟩, hw, ha⟩ := hr
      have hki : k - i = (k - (i + 1)) + 1 := by omega
      rw [runLoop, if_neg (by simp [hci]), hs]
      refine ⟨⟨Ev.log (loadingMsg i n inp) :: Ev.log (exportMsg outp s) ::
        Ev.progress (i * 100 / n) :: pre, by simp [hpre]⟩, ?_, ?_⟩
      · show outp :: (runLoop conv cancel n rs (i + 1)).written = _
        rw [hki, List.take_succ_cons, List.map_cons, hw]
      · show i :: (runLoop conv cancel n rs (i + 1)).attempted = _
        rw [hki, ha]
        rfl

/-- The collision loop returns the candidate with the least free counter:
if the candidates below `k` (starting from counter `c`) are all taken and
candidate `k` is free, the loop stops exactly there. -/
theorem resolveLoop_finds (taken : String → Bool) (base : String) :
    ∀ (k c fuel : ℕ),
      (∀ j, j < k → taken (candName base (c + j)) = true) →
      taken (candName base (c + k)) = false →
      k < fuel →
      resolveLoop taken base fuel c = some (candName base (c + k)) := by
  intro k
  induction k with
  | zero =>
    intro c fuel _ hfree hf
    obtain ⟨f, rfl⟩ : ∃ f, fuel = f + 1 := ⟨fuel - 1, by omega⟩
    have h0 : taken (candName base c) = false := by simpa using hfree
    rw [resolveLoop, if_neg (by simp [h0])]
    simp
  | succ k ih =>
    intro c fuel htaken hfree hf
    obtain ⟨f, rfl⟩ : ∃ f, fuel = f + 1 := ⟨fuel - 1, by omega⟩
    have h0 : taken (candName base c) = true := by
      simpa using htaken 0 (Nat.succ_pos k)
    rw [resolveLoop, if_pos h0]
    have hres := ih (c + 1) f
      (fun j hj => by
        have := htaken (j + 1) (by omega)
        rwa [show c + (j + 1) = c + 1 + j from by omega] at this)
      (by
        have := hfree
        rwa [show c + (k + 1) = c + 1 + k from by omega] at this)
      (by omega)
    rwa [show c + 1 + k = c + (k + 1) from by omega] at hres

/-- In custom mode with a non-empty base name, the naming loop never raises
the empty-name `ValueError`. -/
theorem buildLoop_mode2_no_error (customBase : String) (hcb : customBase ≠ "")
    (total : ℕ) (onDisk : ℕ → String → Bool) (fuel : ℕ) :
    ∀ (stems : List String) (idx : ℕ) (used : List String) (e : String),
      buildLoop 2 customBase total onDisk fuel idx used stems
        ≠ some (Except.error e) := by
  intro stems
  induction stems with
  | nil =>
    intro idx used e h
    simp [buildLoop] at h
  | cons stem rest ih =>
    intro idx used e h
    rw [buildLoop] at h
    have hcb' : (customBase == "") = false := beq_eq_false_iff_ne.2 hcb
    simp only [show ((2 : ℕ) == 0) = false from rfl,
      show ((2 : ℕ) == 1) = false from rfl, hcb', Bool.false_eq_true, if_false] at h
    split at h
    · simp at h
    · split at h
      · simp at h
      · rename_i heq
        exact ih _ _ _ heq
      · simp at h

/-! ### Claim theorems -/

/-- Claim C2 (code bug): `safe_mesh_stats` does not survive a mesh with zero
vertices.  `mesh.bounds` is `None` there, and subscripting it raises a
`TypeError` that `safe_mesh_stats` does not catch — modelled by the `none`
result — whereas the spec asks for a reportable edge case, not a crash. -/
theorem safe_mesh_stats_empty_crash : safe_mesh_stats ⟨[], []⟩ = none := rfl

/-- Claim C5: the duplicate-face pass canonicalizes each face by sorting its
three indices ascending and keeps exactly the first occurrence (in original
face order) of each canonical form; opposite-winding faces share a canonical
form, and the mesh with faces `(0,1,2)` and `(2,1,0)` keeps exactly the
first of them. -/
theorem duplicate_faces_first_occurrence :
    (∀ faces : List Face, removeDuplicateFaces faces = keepFirstCanon faces [])
    ∧ (∀ (faces : List Face) (seen : List (List ℕ)),
        (keepFirstCanon faces seen).Sublist faces)
    ∧ (∀ a b c : ℕ, canonical (a, b, c) = canonical (c, b, a))
    ∧ removeDuplicatePass ⟨[(0,0,0), (1,0,0), (0,1,0)], [(0,1,2), (2,1,0)]⟩
        = some ⟨[(0,0,0), (1,0,0), (0,1,0)], [(0,1,2)]⟩ :=
  ⟨removeDuplicateFaces_eq_keepFirst, keepFirstCanon_sublist,
   fun a b c => sort3_rev a b c, by decide⟩

/-- Claim C6: the degenerate-face pass keeps exactly the faces whose three
vertex indices are pairwise distinct, preserving their order and the
vertices, and in particular removes the face `(0,0,1)`. -/
theorem degenerate_faces_filter :
    (∀ (faces : List Face) (f : Face),
        f ∈ removeDegenerateFaces faces ↔
          f ∈ faces ∧ f.1 ≠ f.2.1 ∧ f.2.1 ≠ f.2.2 ∧ f.1 ≠ f.2.2)
    ∧ (∀ faces : List Face, (removeDegenerateFaces faces).Sublist faces)
    ∧ (∀ m : Mesh,
        removeDegeneratePass m = some ⟨m.vertices, removeDegenerateFaces m.faces⟩)
    ∧ removeDegenerateFaces [(0, 0, 1)] = [] := by
  refine ⟨?_, fun faces => List.filter_sublist _, fun _ => rfl, by decide⟩
  intro faces f
  rw [removeDegenerateFaces, List.mem_filter]
  simp [and_assoc]

/-- Claim C3: `apply_transforms` is exactly the spec's fixed pipeline —
axis swap to `(X, Z, Y)` when enabled, then the independent sign flips, then
the scalar multiplication when the factor is not 1, then (when centering is
enabled) translation by the negative bounding-box midpoint computed after
the previous steps — and consequently, for a mesh with at least one vertex
and centering enabled, the output's bounding-box midpoint is exactly the
origin (per-axis min and max sum to zero), whatever the other settings. -/
theorem apply_transforms_order_and_centering (m : Mesh) (opt : ConvertOptions) :
    apply_transforms m opt = transformPipelineSpec m opt
    ∧ (m.vertices ≠ [] → opt.center_to_origin = true →
        ∃ (m' : Mesh) (mn mx : Vertex), apply_transforms m opt = some m'
          ∧ meshBounds m' = some (mn, mx)
          ∧ mn.1 + mx.1 = 0 ∧ mn.2.1 + mx.2.1 = 0 ∧ mn.2.2 + mx.2.2 = 0) := by
  have hdecomp : apply_transforms m opt = transformPipelineSpec m opt := by
    rw [transformPipelineSpec, swapStepSpec_eq, flipXSpec_eq, flipYSpec_eq,
      flipZSpec_eq, scaleStepSpec_eq]
    rfl
  refine ⟨hdecomp, fun hne hcen => ?_⟩
  have hlen := preSteps_length m opt
  have hne' : (scaleStepSpec opt.scale_factor (flipZSpec opt.flip_z
      (flipYSpec opt.flip_y (flipXSpec opt.flip_x
        (swapStepSpec opt.swap_yz m))))).vertices ≠ [] := by
    intro h0
    rw [h0] at hlen
    exact hne (List.length_eq_zero.1 hlen.symm)
  obtain ⟨m', mn, mx, h1, h2, h3, h4, h5⟩ := centerStepSpec_midpoint _ hne'
  refine ⟨m', mn, mx, ?_, h2, h3, h4, h5⟩
  rw [hdecomp, transformPipelineSpec, hcen]
  exact h1

/-- Concrete instance of claim C3: centering a two-vertex mesh with swap,
all flips, and scale 3 enabled yields a mesh whose bounding box midpoint is
the origin. -/
theorem apply_transforms_order_and_centering_witness :
    ((⟨[(0, 0, 0), (2, 4, 6)], [(0, 1, 1)]⟩ : Mesh).vertices ≠ [])
    ∧ (∃ (m' : Mesh) (mn mx : Vertex),
        apply_transforms ⟨[(0, 0, 0), (2, 4, 6)], [(0, 1, 1)]⟩
            ⟨true, true, 3, true, true, true, true, true⟩ = some m'
          ∧ meshBounds m' = some (mn, mx)
          ∧ mn.1 + mx.1 = 0 ∧ mn.2.1 + mx.2.1 = 0 ∧ mn.2.2 + mx.2.2 = 0) :=
  ⟨by decide,
   (apply_transforms_order_and_centering ⟨[(0, 0, 0), (2, 4, 6)], [(0, 1, 1)]⟩
       ⟨true, true, 3, true, true, true, true, true⟩).2 (by decide) rfl⟩

/-- Claim C10: `cleanup_mesh` runs its passes best-effort — whenever a pass
raises (returns `none`) on the mesh it receives, that pass is skipped and
the mesh proceeds unmodified by it, and `cleanup_mesh` still returns the
result of the remaining passes (it is a total function, so no per-pass
failure surfaces).  Concretely, on the mesh with one vertex and the
out-of-range face `(0,1,2)`, the unreferenced-vertex pass raises, is
skipped, and `cleanup_mesh` returns the mesh unchanged. -/
theorem cleanup_pass_failure_skipped :
    (∀ (m : Mesh) (i : ℕ) (h : i < cleanupPasses.length),
        (cleanupPasses.get ⟨i, h⟩) (stageMesh i m) = none →
        stageMesh (i + 1) m = stageMesh i m)
    ∧ (∀ m : Mesh, cleanup_mesh m = stageMesh cleanupPasses.length m)
    ∧ removeUnreferencedVertices (stageMesh 3 ⟨[(0, 0, 0)], [(0, 1, 2)]⟩) = none
    ∧ cleanup_mesh ⟨[(0, 0, 0)], [(0, 1, 2)]⟩ = ⟨[(0, 0, 0)], [(0, 1, 2)]⟩ := by
  refine ⟨?_, ?_, by decide, by decide⟩
  · intro m i h hfail
    rw [stageMesh_succ i h m, tryPass, hfail]
    rfl
  · intro m
    rw [cleanup_mesh, stageMesh, List.take_length]

/-- Concrete instance of claim C10: on the one-vertex mesh with the
out-of-range face, the fourth pass fails and stage 4 equals stage 3. -/
theorem cleanup_pass_failure_skipped_witness :
    removeUnreferencedVertices (stageMesh 3 ⟨[(0, 0, 0)], [(0, 1, 2)]⟩) = none
    ∧ stageMesh 4 ⟨[(0, 0, 0)], [(0, 1, 2)]⟩ = stageMesh 3 ⟨[(0, 0, 0)], [(0, 1, 2)]⟩ :=
  ⟨by decide,
   cleanup_pass_failure_skipped.1 ⟨[(0, 0, 0)], [(0, 1, 2)]⟩ 3 (by decide) (by decide)⟩

/-- Claim C1 counterexample: the mesh with one finite vertex and no faces
(hence vacuously no degenerate and no duplicate faces) loses its vertex:
the unreferenced-vertex pass of `cleanup_mesh` removes it, so the vertex
count is not preserved. -/
theorem cleanup_mesh_removes_unreferenced_vertex :
    (⟨[(0, 0, 0)], []⟩ : Mesh).vertices.all vertexFinite = true
    ∧ (⟨[(0, 0, 0)], []⟩ : Mesh).faces = []
    ∧ (⟨[(0, 0, 0)], []⟩ : Mesh).vertices.length = 1
    ∧ (cleanup_mesh ⟨[(0, 0, 0)], []⟩).vertices.length = 0 := by decide

/-- Claim C1 as amended: for a mesh with finite coordinates, no degenerate
faces, no duplicate faces (no two faces share a canonical form), and every
vertex referenced by at least one face, `cleanup_mesh` returns the mesh
unchanged — in particular same vertex count, face count, and face
contents. -/
theorem cleanup_mesh_id_of_clean (m : Mesh)
    (_hfin : m.vertices.all vertexFinite = true)
    (hdeg : ∀ f ∈ m.faces, f.1 ≠ f.2.1 ∧ f.2.1 ≠ f.2.2 ∧ f.1 ≠ f.2.2)
    (hdup : m.faces.Pairwise fun f g => canonical f ≠ canonical g)
    (href : ∀ i < m.vertices.length, referencedIn m.faces i = true) :
    cleanup_mesh m = m
    ∧ (cleanup_mesh m).vertices.length = m.vertices.length
    ∧ (cleanup_mesh m).faces.length = m.faces.length
    ∧ (cleanup_mesh m).faces = m.faces := by
  have h1 : tryPass removeInfiniteValues m = m := by
    rw [tryPass, removeInfiniteValues_eq]
    rfl
  have h2 : tryPass removeDegeneratePass m = m := by
    rw [tryPass, removeDegeneratePass, Option.getD_some,
      removeDegenerateFaces_eq_self m.faces hdeg]
  have h3 : tryPass removeDuplicatePass m = m := by
    rw [tryPass, removeDuplicatePass, Option.getD_some]
    split_ifs
    · rw [removeDuplicateFaces_eq_self m.faces hdup]
    · rfl
  have h4 : tryPass removeUnreferencedVertices m = m :=
    removeUnreferencedVertices_id m href
  have h5 : tryPass fixNormalsPass m = m := rfl
  have hall : cleanup_mesh m = m := by
    show tryPass fixNormalsPass (tryPass removeUnreferencedVertices
      (tryPass removeDuplicatePass (tryPass removeDegeneratePass
        (tryPass removeInfiniteValues m)))) = m
    rw [h1, h2, h3, h4, h5]
  exact ⟨hall, by rw [hall], by rw [hall], by rw [hall]⟩

/-- Concrete instance of the amended claim C1: a clean triangle mesh (three
finite vertices, one non-degenerate face referencing all of them) passes
through `cleanup_mesh` unchanged. -/
theorem cleanup_mesh_id_of_clean_witness :
    (∀ f ∈ (⟨[(0, 0, 0), (1, 0, 0), (0, 1, 0)], [(0, 1, 2)]⟩ : Mesh).faces,
        f.1 ≠ f.2.1 ∧ f.2.1 ≠ f.2.2 ∧ f.1 ≠ f.2.2)
    ∧ cleanup_mesh ⟨[(0, 0, 0), (1, 0, 0), (0, 1, 0)], [(0, 1, 2)]⟩
        = ⟨[(0, 0, 0), (1, 0, 0), (0, 1, 0)], [(0, 1, 2)]⟩ :=
  ⟨by decide,
   (cleanup_mesh_id_of_clean ⟨[(0, 0, 0), (1, 0, 0), (0, 1, 0)], [(0, 1, 2)]⟩
     (by decide) (by decide) (by decide) (by decide)).1⟩

/-- Claim C4: the worker observes the cancellation flag only at job
boundaries.  If the flag first reads true at the boundary before job `k`
(1-based), the worker converts jobs `1 … k−1` (their outputs are on disk and
stay there), attempts exactly those jobs and none from `k` on, and ends its
event stream with the cancellation log and the non-success terminal signal
"Cancelled by user.". -/
theorem run_cancel_at_boundary (items : List (String × String))
    (conv : ℕ → Except String MeshStats) (cancel : ℕ → Bool) (k : ℕ)
    (hk1 : 1 ≤ k) (hk2 : k ≤ items.length)
    (hcf : ∀ j, 1 ≤ j → j < k → cancel j = false)
    (hct : cancel k = true)
    (hcv : ∀ j, 1 ≤ j → j < k → ∃ s, conv j = Except.ok s) :
    (∃ pre, (ConvertWorker.run items conv cancel).events
        = pre ++ [Ev.log "Cancelled.", Ev.done false "Cancelled by user."])
    ∧ (ConvertWorker.run items conv cancel).written
        = (items.take (k - 1)).map Prod.snd
    ∧ (ConvertWorker.run items conv cancel).attempted = List.range' 1 (k - 1) := by
  have hne : ¬items.length = 0 := by omega
  obtain ⟨⟨pre, hpre⟩, hw, ha⟩ :=
    runLoop_cancelled conv cancel items.length items 1 k hk1 (by omega) hcf hct hcv
  rw [ConvertWorker.run, if_neg hne]
  exact ⟨⟨Ev.log ("Starting conversion of " ++ toString items.length ++
    " file(s)...") :: Ev.progress 0 :: pre, by simp [hpre]⟩, hw, ha⟩

/-- Concrete instance of claim C4: cancelling at the boundary before job 2
of 3 leaves job 1 attempted with its output written, jobs 2–3 unattempted,
and the run ends with the cancellation events. -/
theorem run_cancel_at_boundary_witness :
    (1 : ℕ) ≤ 2
    ∧ ((∃ pre, (ConvertWorker.run [("a.stl", "a.obj"), ("b.stl", "b.obj"), ("c.stl", "c.obj")]
          (fun _ => Except.ok ⟨0, 0, (0, 0, 0), (0, 0, 0), (0, 0, 0)⟩)
          (fun i => decide (2 ≤ i))).events
        = pre ++ [Ev.log "Cancelled.", Ev.done false "Cancelled by user."])
      ∧ (ConvertWorker.run [("a.stl", "a.obj"), ("b.stl", "b.obj"), ("c.stl", "c.obj")]
          (fun _ => Except.ok ⟨0, 0, (0, 0, 0), (0, 0, 0), (0, 0, 0)⟩)
          (fun i => decide (2 ≤ i))).written
        = ([("a.stl", "a.obj"), ("b.stl", "b.obj"), ("c.stl", "c.obj")].take (2 - 1)).map
            Prod.snd
      ∧ (ConvertWorker.run [("a.stl", "a.obj"), ("b.stl", "b.obj"), ("c.stl", "c.obj")]
          (fun _ => Except.ok ⟨0, 0, (0, 0, 0), (0, 0, 0), (0, 0, 0)⟩)
          (fun i => decide (2 ≤ i))).attempted = List.range' 1 (2 - 1)) :=
  ⟨by decide,
   run_cancel_at_boundary [("a.stl", "a.obj"), ("b.stl", "b.obj"), ("c.stl", "c.obj")]
     (fun _ => Except.ok ⟨0, 0, (0, 0, 0), (0, 0, 0), (0, 0, 0)⟩)
     (fun i => decide (2 ≤ i)) 2 (by decide) (by decide)
     (fun j _ hj2 => by
       have : ¬(2 ≤ j) := by omega
       simp [this])
     (by decide)
     (fun j _ _ => ⟨⟨0, 0, (0, 0, 0), (0, 0, 0), (0, 0, 0)⟩, rfl⟩)⟩

/-- Claim C7: the output namer resolves collisions deterministically with a
case-insensitive used-name set: a computed name that collides (on disk or
with a name assigned earlier in the run) gets `_1`, `_2`, … appended until
the first free candidate; with `part.obj` already on disk and custom base
`part` for a single job the result is `part_1.obj`, and a second job whose
name differs only in case still collides and gets `_1`. -/
theorem output_naming_collision_suffix (taken : String → Bool) (base : String)
    (k fuel : ℕ)
    (h1 : ∀ j, j < k → taken (candName base j) = true)
    (h2 : taken (candName base k) = false)
    (h3 : k < fuel) :
    resolveLoop taken base fuel 0 = some (candName base k)
    ∧ buildConversionList 2 "part" ["input"] (fun _ c => c == "part.obj") 3
        = some (Except.ok ["part_1.obj"])
    ∧ buildConversionList 0 "" ["part", "PART"] (fun _ _ => false) 3
        = some (Except.ok ["part.obj", "PART_1.obj"]) := by
  refine ⟨?_, by decide, by decide⟩
  have hres := resolveLoop_finds taken base k 0 fuel
    (fun j hj => by simpa using h1 j hj) (by simpa using h2) h3
  simpa using hres

/-- Concrete instance of claim C7: with `part.obj` taken, the loop starting
at the bare name resolves to the first free suffix `part_1.obj`. -/
theorem output_naming_collision_suffix_witness :
    (1 : ℕ) < 3
    ∧ (resolveLoop (fun c => c == "part.obj") "part" 3 0 = some (candName "part" 1)
      ∧ buildConversionList 2 "part" ["input"] (fun _ c => c == "part.obj") 3
          = some (Except.ok ["part_1.obj"])
      ∧ buildConversionList 0 "" ["part", "PART"] (fun _ _ => false) 3
          = some (Except.ok ["part.obj", "PART_1.obj"])) :=
  ⟨by decide,
   output_naming_collision_suffix (fun c => c == "part.obj") "part" 1 3
     (fun j hj => by
       have hj0 : j = 0 := by omega
       subst hj0
       decide)
     (by decide) (by decide)⟩

/-- Claim C8 counterexample: with custom naming mode, an empty custom base
name, and an empty job list, name resolution succeeds (returns the empty
pairing) instead of failing — the empty-name check sits inside the per-job
loop, which never runs — so resolution does not fail "exactly when the
custom base name is empty". -/
theorem custom_naming_empty_joblist_no_error :
    buildConversionList 2 "" [] (fun _ _ => false) 1 = some (Except.ok []) := rfl

/-- Claim C8 as amended: for a NON-EMPTY job list in custom naming mode,
resolution raises the naming `ValueError` exactly when the custom base name
is empty; and with non-empty base `export`, three jobs, and a clean
destination, the outputs are `export_01.obj`, `export_02.obj`,
`export_03.obj` (zero-padded sequential indices in job order). -/
theorem custom_naming_error_iff (base : String) (stems : List String)
    (onDisk : ℕ → String → Bool) (fuel : ℕ) (hne : stems ≠ []) :
    ((∃ e, buildConversionList 2 base stems onDisk fuel = some (Except.error e))
      ↔ base = "")
    ∧ buildConversionList 2 "export" ["a", "b", "c"] (fun _ _ => false) 5
        = some (Except.ok ["export_01.obj", "export_02.obj", "export_03.obj"]) := by
  refine ⟨⟨?_, ?_⟩, by decide⟩
  · rintro ⟨e, he⟩
    by_contra hb
    exact buildLoop_mode2_no_error base hb stems.length onDisk fuel stems 1 [] e he
  · rintro rfl
    obtain ⟨s, rest, rfl⟩ := List.exists_cons_of_ne_nil hne
    exact ⟨"Custom name selected but no name provided.", rfl⟩

/-- Concrete instance of the amended claim C8: with a non-empty base name
and one job, no error is raised, and the three-job `export` run produces
the zero-padded names. -/
theorem custom_naming_error_iff_witness :
    (["solo"] : List String) ≠ []
    ∧ (((∃ e, buildConversionList 2 "name" ["solo"] (fun _ _ => false) 2
          = some (Except.error e)) ↔ ("name" : String) = "")
      ∧ buildConversionList 2 "export" ["a", "b", "c"] (fun _ _ => false) 5
          = some (Except.ok ["export_01.obj", "export_02.obj", "export_03.obj"])) :=
  ⟨by decide, custom_naming_error_iff "name" ["solo"] (fun _ _ => false) 2 (by decide)⟩

/-- Claim C9: starting the worker on an empty job list immediately emits the
non-success terminal signal "No files to convert.", attempts no job, writes
nothing, and emits no progress value at all. -/
theorem run_empty_joblist (conv : ℕ → Except String MeshStats) (cancel : ℕ → Bool) :
    ConvertWorker.run [] conv cancel
      = ⟨[Ev.done false "No files to convert."], [], []⟩
    ∧ (∀ p : ℕ, Ev.progress p ∉ (ConvertWorker.run [] conv cancel).events) := by
  refine ⟨rfl, fun p hp => ?_⟩
  rw [show ConvertWorker.run [] conv cancel
      = ⟨[Ev.done false "No files to convert."], [], []⟩ from rfl] at hp
  simp at hp

end STLObj
